import Mathlib

/-!
# Verification of the dx REPL and module-map subsystem

A shallow embedding, in Lean, of the core logic of the dx repository:

* `prepareSpecifierForImport` (src/module_map.ts, lines 121-144): module
  specifier resolution against an optional Deno import map;
* the module-map store (src/module_map.ts): `loadModuleMap`,
  `saveModuleMap`, `addModuleToMap`, `removeModuleFromMap`, persisting a
  JSON document to a single file;
* the REPL buffer engine (src/repl.ts): the `.run`, `.bhprev` and
  `.bhnext` command handlers over the mutable triple
  `codeBuffer` / `executedBufferHistory` / `bufferHistoryPointer`.

File contents are modelled as `List Char`; the durable module-map file is
an `Option (List Char)` (`none` = the file does not exist).  The platform
pieces the source calls into - the WHATWG URL constructor, `JSON.parse`
and `JSON.stringify` - are embedded as executable Lean functions as well,
so every operation here is a computable function of its inputs.
-/

/-! ## The WHATWG URL constructor, as used by the resolver

`prepareSpecifierForImport` decides "is this a full URL" with
`new URL(specifier)` (no base URL) inside try/catch.  The functions below
model the success/failure of that constructor.  Approximations, stated
once: host-character validation, IPv6 literals, IDNA mapping and port
range checks are not modelled - the model only requires a special-scheme
URL (http, https, ws, wss, ftp) to carry a nonempty host, which is the
distinction the resolver's inputs exercise.  Non-special schemes take the
opaque-path parse, which never fails.
-/

/-- The URL constructor first removes every ASCII tab and newline and
trims C0-control-or-space characters from both ends of its input. -/
def stripUrlWhitespace (cs : List Char) : List Char :=
  let noTabNl := cs.filter (fun c => ¬ (c = '\t' ∨ c = '\n' ∨ c = '\r'))
  ((noTabNl.dropWhile (fun c => c.toNat ≤ 0x20)).reverse.dropWhile
    (fun c => c.toNat ≤ 0x20)).reverse

/-- First character of a URL scheme: an ASCII letter. -/
def isSchemeStart (c : Char) : Bool := c.isAlpha

/-- Subsequent characters of a URL scheme. -/
def isSchemeChar (c : Char) : Bool := c.isAlphanum || c = '+' || c = '-' || c = '.'

/-- Split a character list at its first `:`, returning the characters
before it and the characters after it; `none` when there is no colon. -/
def splitAtColon : List Char → Option (List Char × List Char)
  | [] => none
  | c :: rest =>
    if c = ':' then some ([], rest)
    else (splitAtColon rest).map (fun p => (c :: p.1, p.2))

/-- The characters after the last `@`, or the whole list when there is
none (the authority's host-and-port part follows the last `@`). -/
def afterLastAtSign (cs : List Char) : List Char :=
  (cs.reverse.takeWhile (fun c => c ≠ '@')).reverse

/-- For a special-scheme URL, the text after `scheme:` must contain a
nonempty host: skip the leading slashes, cut the authority at the first
`/`, `\`, `?` or `#`, drop a userinfo part, and require a nonempty host
before any `:port`. -/
def authorityHasHost (rest : List Char) : Bool :=
  let afterSlashes := rest.dropWhile (fun c => c = '/' ∨ c = '\\')
  let authority := afterSlashes.takeWhile
    (fun c => ¬ (c = '/' ∨ c = '\\' ∨ c = '?' ∨ c = '#'))
  let hostPort := afterLastAtSign authority
  let host := hostPort.takeWhile (fun c => c ≠ ':')
  ¬ host.isEmpty

/-- Success of `new URL(specifier)` with no base URL: a valid scheme
followed by `:`, and - for the special schemes other than `file` - a
nonempty host.  A string with no valid scheme prefix throws, which is the
`catch` path at src/module_map.ts line 131. -/
def parsesAsUrl (specifier : String) : Bool :=
  match splitAtColon (stripUrlWhitespace specifier.toList) with
  | none => false
  | some (schemeChars, rest) =>
    match schemeChars with
    | [] => false
    | c0 :: cTail =>
      if isSchemeStart c0 ∧ cTail.all isSchemeChar then
        let scheme := String.mk (schemeChars.map Char.toLower)
        if scheme = "file" then true
        else if scheme = "ftp" ∨ scheme = "http" ∨ scheme = "https" ∨
                scheme = "ws" ∨ scheme = "wss" then
          authorityHasHost rest
        else true
      else false

/-! ## The specifier resolver (src/module_map.ts, lines 121-144) -/

/-- `DenoImportMap` from src/module_map.ts line 3: `imports` is a JS
object mapping bare keys to specifier strings; modelled as an association
list with distinct keys, looked up with `List.lookup`. -/
structure DenoImportMap where
  imports : List (String × String)
deriving DecidableEq

/-- The replacement step at src/module_map.ts line 124:
`activeImportMap.imports[specifier]` is used only when truthy, and the
empty string is the one falsy string, so a key mapped to `""` is treated
as absent. -/
def importMapTruthyLookup (m : DenoImportMap) (k : String) : Option String :=
  match m.imports.lookup k with
  | some v => if v = "" then none else some v
  | none => none

/-- The import-map hit for an optional map (`activeImportMap &&
activeImportMap.imports && activeImportMap.imports[specifier]`). -/
def importMapHit (im : Option DenoImportMap) (k : String) : Option String :=
  match im with
  | some m => importMapTruthyLookup m k
  | none => none

/-- `String.prototype.startsWith`, as character-list matching. -/
def strStartsWith (s p : String) : Bool := p.data.isPrefixOf s.data

/-- The error message thrown at src/module_map.ts line 143; it carries
the original, pre-replacement specifier. -/
def unresolvableMessage (originalSpecifier : String) : String :=
  "Unable to resolve specifier: " ++ originalSpecifier ++
    ". It\x27s not a valid URL, recognized scheme (jsr:, npm:), or a key in the provided import map resolving to one."

/-- `prepareSpecifierForImport` (src/module_map.ts, lines 121-144).
Steps, in source order: replace the specifier by its import-map value
when that lookup is truthy; return the (possibly replaced) string if
`new URL` accepts it; rewrite a leading `@std/` to `jsr:@std/`; return a
string starting with `jsr:` or `npm:`; otherwise throw, naming the
original specifier.  The thrown error is modelled as `Except.error`. -/
def prepareSpecifierForImport (specifier : String) (activeImportMap : Option DenoImportMap) :
    Except String String :=
  let s1 := (importMapHit activeImportMap specifier).getD specifier
  if parsesAsUrl s1 then .ok s1
  else
    let s2 := if strStartsWith s1 "@std/" then "jsr:" ++ s1 else s1
    if strStartsWith s2 "jsr:" ∨ strStartsWith s2 "npm:" then .ok s2
    else .error (unresolvableMessage specifier)

/-! ## The REPL buffer engine (src/repl.ts)

The three module-level mutable variables of src/repl.ts lines 18-20, as
one state record.  `bufferHistoryPointer` is a JS number that takes the
value `-1` ("live buffer") or a history index, hence `Int`. -/

structure ReplState where
  codeBuffer : List String
  executedBufferHistory : List (List String)
  bufferHistoryPointer : Int
deriving DecidableEq

/-- The `.run` handler (src/repl.ts, lines 88-104).  Returns the new
state together with the text handed to `evaluateCode` (`none` when the
buffer was empty and only the notice was printed).  In source order: push
a copy of the buffer, `shift()` when the history has grown past 100, set
the pointer to the new last index, evaluate the lines joined with
newlines; finally `codeBuffer = []` on both branches. -/
def commandRun (st : ReplState) : ReplState × Option String :=
  if st.codeBuffer.length > 0 then
    let codeToRun := st.codeBuffer
    let pushed := st.executedBufferHistory ++ [codeToRun]
    let hist := if pushed.length > 100 then pushed.tail else pushed
    ({ codeBuffer := [],
       executedBufferHistory := hist,
       bufferHistoryPointer := (hist.length : Int) - 1 },
     some (String.intercalate "\n" codeToRun))
  else
    ({ st with codeBuffer := [] }, none)

/-- The `.bhprev` handler (src/repl.ts, lines 175-191): on empty history,
only a notice; from the live buffer (`pointer = -1`) jump to the last
history index; otherwise decrement when possible (else only the
"already at the oldest" notice); then, whenever the pointer is a valid
index, copy that history entry into the live buffer. -/
def commandBhprev (st : ReplState) : ReplState :=
  if st.executedBufferHistory.length = 0 then st
  else
    let p :=
      if st.bufferHistoryPointer = -1 then (st.executedBufferHistory.length : Int) - 1
      else if st.bufferHistoryPointer > 0 then st.bufferHistoryPointer - 1
      else st.bufferHistoryPointer
    let buf :=
      if 0 ≤ p ∧ p < (st.executedBufferHistory.length : Int) then
        st.executedBufferHistory.getD p.toNat []
      else st.codeBuffer
    { st with bufferHistoryPointer := p, codeBuffer := buf }

/-- The `.bhnext` handler (src/repl.ts, lines 193-211): on empty history,
only a notice; on the live buffer (`pointer = -1`), only the "type
.bhprev first" notice; below the newest index, increment and copy; at the
newest index, clear the buffer and return to the live buffer
(`pointer = -1`). -/
def commandBhnext (st : ReplState) : ReplState :=
  if st.executedBufferHistory.length = 0 then st
  else if st.bufferHistoryPointer = -1 then st
  else if st.bufferHistoryPointer < (st.executedBufferHistory.length : Int) - 1 then
    let p := st.bufferHistoryPointer + 1
    { st with bufferHistoryPointer := p,
              codeBuffer := st.executedBufferHistory.getD p.toNat [] }
  else
    { st with codeBuffer := [], bufferHistoryPointer := -1 }

/-! ## JSON values

The store keeps its durable state as JSON text and goes through the
platform `JSON.parse` / `JSON.stringify`.  `Json` is the parse tree of a
JSON document.  Numbers are kept as their source lexeme (no claim here
inspects a numeric value); an object is kept as its raw member list in
source order (`JSON.parse` would de-duplicate repeated keys keeping the
last value, and the accessors below read the last occurrence to match). -/

inductive Json where
  | null : Json
  | bool (b : Bool) : Json
  | num (lexeme : String) : Json
  | str (s : String) : Json
  | arr (elems : List Json) : Json
  | obj (fields : List (String × Json)) : Json

/-! ## `JSON.parse`, modelled

A recursive-descent parse over `List Char`.  The mutually recursive value
and member/element loops are made structurally recursive with a fuel
parameter; every recursive call both consumes fuel and sits behind at
least one consumed input character, so `length + 1` fuel is enough for
every input, which is how `parseJsonText` instantiates it. -/

/-- JSON insignificant whitespace (RFC 8259): space, tab, LF, CR. -/
def isJsonWs (c : Char) : Bool := c = ' ' || c = '\t' || c = '\n' || c = '\r'

/-- Drop leading JSON whitespace. -/
def skipWs : List Char → List Char
  | [] => []
  | c :: rest => if isJsonWs c then skipWs rest else c :: rest

/-- An ASCII decimal digit. -/
def isDigitChar (c : Char) : Bool := '0' ≤ c && c ≤ '9'

/-- Split off the longest leading run of decimal digits. -/
def takeDigits : List Char → List Char × List Char
  | [] => ([], [])
  | c :: rest =>
    if isDigitChar c then
      let (ds, r) := takeDigits rest
      (c :: ds, r)
    else ([], c :: rest)

/-- The value of a hexadecimal digit, or `none`. -/
def hexVal (c : Char) : Option Nat :=
  if '0' ≤ c ∧ c ≤ '9' then some (c.toNat - '0'.toNat)
  else if 'a' ≤ c ∧ c ≤ 'f' then some (c.toNat - 'a'.toNat + 10)
  else if 'A' ≤ c ∧ c ≤ 'F' then some (c.toNat - 'A'.toNat + 10)
  else none

/-- Four hex digits of a `\u` escape, as a code unit. -/
def hex4 (h1 h2 h3 h4 : Char) : Option Nat :=
  match hexVal h1, hexVal h2, hexVal h3, hexVal h4 with
  | some v1, some v2, some v3, some v4 => some (4096 * v1 + 256 * v2 + 16 * v3 + v4)
  | _, _, _, _ => none

/-- The single-character escapes of a JSON string. -/
def simpleUnescape (e : Char) : Option Char :=
  if e = '"' then some '"'
  else if e = '\\' then some '\\'
  else if e = '/' then some '/'
  else if e = 'b' then some '\x08'
  else if e = 'f' then some '\x0c'
  else if e = 'n' then some '\n'
  else if e = 'r' then some '\r'
  else if e = 't' then some '\t'
  else none

/-- The body of a JSON string, after its opening quote, decoded to the
UTF-16 code units `JSON.parse` produces: one unit per escape or ordinary
character (a raw astral character contributes its scalar value directly,
standing for its surrogate pair).  A raw control character or an unknown
or truncated escape is a syntax error, as in `JSON.parse`. -/
def parseStringUnits (acc : List Nat) : List Char → Option (List Nat × List Char)
  | [] => none
  | c :: rest =>
    if c = '"' then some (acc, rest)
    else if c = '\\' then
      match rest with
      | [] => none
      | e :: rest2 =>
        if e = 'u' then
          match rest2 with
          | h1 :: h2 :: h3 :: h4 :: rest3 =>
            match hex4 h1 h2 h3 h4 with
            | some n => parseStringUnits (acc ++ [n]) rest3
            | none => none
          | _ => none
        else
          match simpleUnescape e with
          | some d => parseStringUnits (acc ++ [d.toNat]) rest2
          | none => none
    else if c.toNat < 0x20 then none
    else parseStringUnits (acc ++ [c.toNat]) rest

/-- A high (leading) surrogate code unit. -/
def isHighSurrogate (u : Nat) : Bool := 0xD800 ≤ u ∧ u ≤ 0xDBFF

/-- A low (trailing) surrogate code unit. -/
def isLowSurrogate (u : Nat) : Bool := 0xDC00 ≤ u ∧ u ≤ 0xDFFF

/-- One code unit outside a surrogate pair, as a character.  `JSON.parse`
keeps a lone surrogate in the JS string; a Lean `Char` cannot carry one,
so the model stands it in with U+FFFD (no theorem below reaches that
case). -/
def unitChar (u : Nat) : Char :=
  if isHighSurrogate u ∨ isLowSurrogate u then '\uFFFD' else Char.ofNat u

/-- Combine a UTF-16 code-unit sequence into characters, pairing
surrogates; structural on a fuel bounded by the list length. -/
def unitsToCharsFuel (fuel : Nat) (units : List Nat) : List Char :=
  match fuel with
  | 0 => []
  | fuel + 1 =>
    match units with
    | [] => []
    | u :: rest =>
      if isHighSurrogate u then
        match rest with
        | u2 :: rest2 =>
          if isLowSurrogate u2 then
            Char.ofNat (0x10000 + (u - 0xD800) * 0x400 + (u2 - 0xDC00)) ::
              unitsToCharsFuel fuel rest2
          else unitChar u :: unitsToCharsFuel fuel rest
        | [] => [unitChar u]
      else unitChar u :: unitsToCharsFuel fuel rest

/-- The characters of a decoded code-unit sequence. -/
def unitsToChars (units : List Nat) : List Char :=
  unitsToCharsFuel units.length units

/-- The body of a JSON string as the string it denotes, with the input
after the closing quote. -/
def parseStringBody (cs : List Char) : Option (String × List Char) :=
  match parseStringUnits [] cs with
  | some (units, rest) => some (String.mk (unitsToChars units), rest)
  | none => none

/-- A JSON number token, returned as its lexeme: optional `-`, an
integer part with no superfluous leading zero, an optional fraction and
an optional exponent, each needing at least one digit. -/
def parseNumberToken (cs : List Char) : Option (String × List Char) :=
  let (sign, cs1) := match cs with
    | '-' :: r => (['-'], r)
    | _ => (([] : List Char), cs)
  match takeDigits cs1 with
  | ([], _) => none
  | (intDs, cs2) =>
    if intDs.head? = some '0' ∧ 1 < intDs.length then none
    else
      let fracRes : Option (List Char × List Char) :=
        match cs2 with
        | '.' :: r =>
          match takeDigits r with
          | ([], _) => none
          | (ds, r2) => some ('.' :: ds, r2)
        | _ => some ([], cs2)
      match fracRes with
      | none => none
      | some (fracDs, cs3) =>
        let expRes : Option (List Char × List Char) :=
          match cs3 with
          | 'e' :: r | 'E' :: r =>
            let (eSign, r1) : List Char × List Char := match r with
              | '+' :: r' => (['e', '+'], r')
              | '-' :: r' => (['e', '-'], r')
              | _ => (['e'], r)
            match takeDigits r1 with
            | ([], _) => none
            | (ds, r2) => some (eSign ++ ds, r2)
          | _ => some ([], cs3)
        match expRes with
        | none => none
        | some (expDs, cs4) =>
          some (String.mk (sign ++ intDs ++ fracDs ++ expDs), cs4)

mutual

/-- One JSON value, after skipping leading whitespace. -/
def parseValue (fuel : Nat) (cs : List Char) : Option (Json × List Char) :=
  match fuel with
  | 0 => none
  | fuel + 1 =>
    match skipWs cs with
    | [] => none
    | c :: rest =>
      if c = 'n' then
        match rest with
        | 'u' :: 'l' :: 'l' :: r => some (.null, r)
        | _ => none
      else if c = 't' then
        match rest with
        | 'r' :: 'u' :: 'e' :: r => some (.bool true, r)
        | _ => none
      else if c = 'f' then
        match rest with
        | 'a' :: 'l' :: 's' :: 'e' :: r => some (.bool false, r)
        | _ => none
      else if c = '"' then
        match parseStringBody rest with
        | some (s, r) => some (.str s, r)
        | none => none
      else if c = '[' then
        match skipWs rest with
        | [] => none
        | c2 :: r2 =>
          if c2 = ']' then some (.arr [], r2)
          else
            match parseElements fuel (c2 :: r2) with
            | some (es, r3) => some (.arr es, r3)
            | none => none
      else if c = '{' then
        match skipWs rest with
        | [] => none
        | c2 :: r2 =>
          if c2 = '}' then some (.obj [], r2)
          else
            match parseMembers fuel (c2 :: r2) with
            | some (ms, r3) => some (.obj ms, r3)
            | none => none
      else if c = '-' ∨ isDigitChar c then
        match parseNumberToken (c :: rest) with
        | some (lex, r) => some (.num lex, r)
        | none => none
      else none

/-- One or more comma-separated array elements, consuming the closing
`]` (the empty array is handled in `parseValue`). -/
def parseElements (fuel : Nat) (cs : List Char) : Option (List Json × List Char) :=
  match fuel with
  | 0 => none
  | fuel + 1 =>
    match parseValue fuel cs with
    | none => none
    | some (v, r) =>
      match skipWs r with
      | [] => none
      | c :: r2 =>
        if c = ',' then
          match parseElements fuel r2 with
          | some (vs, r3) => some (v :: vs, r3)
          | none => none
        else if c = ']' then some ([v], r2)
        else none

/-- One or more comma-separated object members, consuming the closing
`}` (the empty object is handled in `parseValue`). -/
def parseMembers (fuel : Nat) (cs : List Char) : Option (List (String × Json) × List Char) :=
  match fuel with
  | 0 => none
  | fuel + 1 =>
    match skipWs cs with
    | [] => none
    | c :: rest =>
      if c = '"' then
        match parseStringBody rest with
        | none => none
        | some (k, r1) =>
          match skipWs r1 with
          | [] => none
          | c2 :: r2 =>
            if c2 = ':' then
              match parseValue fuel r2 with
              | none => none
              | some (v, r3) =>
                match skipWs r3 with
                | [] => none
                | c3 :: r4 =>
                  if c3 = ',' then
                    match parseMembers fuel r4 with
                    | some (ms, r5) => some ((k, v) :: ms, r5)
                    | none => none
                  else if c3 = '}' then some ([(k, v)], r4)
                  else none
            else none
      else none

end

/-- `JSON.parse(text)`: one complete value, with whitespace allowed on
both sides; `none` models the thrown `SyntaxError`. -/
def parseJsonText (cs : List Char) : Option Json :=
  match parseValue (cs.length + 1) cs with
  | some (j, r) => if (skipWs r).isEmpty then some j else none
  | none => none

/-! ## `JSON.stringify(value, null, 2)`, modelled

The store always serializes with `JSON.stringify(map, null, 2)`
(src/module_map.ts line 68): two-space indentation, members on their own
lines, `": "` between a key and its value, and empty containers printed
with no inner whitespace.  A number prints as its stored lexeme (the
store never persists numbers, so JS double formatting is not modelled). -/

/-- A lowercase hexadecimal digit, as `JSON.stringify` emits in `\u00..`
escapes. -/
def hexDigitChar (n : Nat) : Char :=
  if n < 10 then Char.ofNat ('0'.toNat + n) else Char.ofNat ('a'.toNat + (n - 10))

/-- How `JSON.stringify` escapes one character of a string: `"`, `\`,
the named control escapes, `\u00xx` for the remaining control
characters, and every other character unchanged. -/
def escapeChar (c : Char) : List Char :=
  if c = '"' then ['\\', '"']
  else if c = '\\' then ['\\', '\\']
  else if c = '\x08' then ['\\', 'b']
  else if c = '\t' then ['\\', 't']
  else if c = '\n' then ['\\', 'n']
  else if c = '\x0c' then ['\\', 'f']
  else if c = '\r' then ['\\', 'r']
  else if c.toNat < 0x20 then
    ['\\', 'u', '0', '0', hexDigitChar (c.toNat / 16), hexDigitChar (c.toNat % 16)]
  else [c]

/-- Escape every character of a string body. -/
def escapeList : List Char → List Char
  | [] => []
  | c :: rest => escapeChar c ++ escapeList rest

/-- A string literal: quote, escaped body, quote. -/
def renderString (s : String) : List Char :=
  '"' :: (escapeList s.data ++ ['"'])

mutual

/-- One value at indentation `ind` (the indentation of the line its
closing bracket would sit on). -/
def renderJson (ind : Nat) : Json → List Char
  | .null => "null".data
  | .bool true => "true".data
  | .bool false => "false".data
  | .num lex => lex.data
  | .str s => renderString s
  | .arr [] => ['[', ']']
  | .arr (e :: es) =>
    '[' :: '\n' :: (renderElems (ind + 2) e es ++
      '\n' :: (List.replicate ind ' ' ++ [']']))
  | .obj [] => ['{', '}']
  | .obj (f :: fs) =>
    '{' :: '\n' :: (renderFields (ind + 2) f fs ++
      '\n' :: (List.replicate ind ' ' ++ ['}']))
termination_by j => sizeOf j

/-- Nonempty array elements, one per line, comma-separated. -/
def renderElems (ind : Nat) (e : Json) (es : List Json) : List Char :=
  match es with
  | [] => List.replicate ind ' ' ++ renderJson ind e
  | e2 :: es2 =>
    List.replicate ind ' ' ++ (renderJson ind e ++
      ',' :: '\n' :: renderElems ind e2 es2)
termination_by 1 + sizeOf e + sizeOf es

/-- Nonempty object members, one per line, comma-separated. -/
def renderFields (ind : Nat) (f : String × Json) (fs : List (String × Json)) : List Char :=
  match f, fs with
  | (k, v), [] =>
    List.replicate ind ' ' ++ (renderString k ++ ':' :: ' ' :: renderJson ind v)
  | (k, v), f2 :: fs2 =>
    List.replicate ind ' ' ++ (renderString k ++ ':' :: ' ' :: (renderJson ind v ++
      ',' :: '\n' :: renderFields ind f2 fs2))
termination_by 1 + sizeOf f + sizeOf fs

end

/-! ## The module-map store (src/module_map.ts)

The durable state is the single file `<config>/dx/module_map.json`,
modelled as `Option (List Char)`: `none` when the file does not exist
(the `Deno.errors.NotFound` path), otherwise its text. -/

/-- `ModuleMapEntry` (src/module_map.ts lines 8-11). -/
structure ModuleMapEntry where
  name : String
  url : String
deriving DecidableEq

/-- `ModuleMap` (src/module_map.ts line 17): a JS object keyed by module
name, as an insertion-ordered association list. -/
abbrev ModuleMap := List (String × ModuleMapEntry)

/-- The JSON document a `ModuleMapEntry` serializes to. -/
def entryToJson (e : ModuleMapEntry) : Json :=
  .obj [("name", .str e.name), ("url", .str e.url)]

/-- The JSON field a module-map binding serializes to. -/
def fieldToJson (p : String × ModuleMapEntry) : String × Json :=
  (p.1, entryToJson p.2)

/-- The JSON document a `ModuleMap` serializes to. -/
def moduleMapToJson (m : ModuleMap) : Json :=
  .obj (m.map fieldToJson)

/-- `loadModuleMap` (src/module_map.ts lines 41-58): a missing file gives
the empty map; a file whose content trims to the empty string gives the
empty map; content `JSON.parse` rejects gives the empty map (after a
logged diagnostic); otherwise the parsed value is returned unvalidated
(the `as ModuleMap` cast checks nothing).  The `trim() === ""` test is
modelled as "every character is whitespace".  The function never
throws - every branch returns a value. -/
def loadModuleMap (file : Option (List Char)) : Json :=
  match file with
  | none => Json.obj []
  | some content =>
    if content.all Char.isWhitespace then Json.obj []
    else
      match parseJsonText content with
      | some j => j
      | none => Json.obj []

/-- `saveModuleMap` (src/module_map.ts lines 65-74): overwrite the file
with `JSON.stringify(map, null, 2)`.  Takes the JSON document, since the
value the source saves is whatever `loadModuleMap` handed back. -/
def saveModuleMapJson (j : Json) : Option (List Char) :=
  some (renderJson 0 j)

/-- Saving a well-typed module map: `saveModuleMapJson` on its JSON
document. -/
def saveModuleMap (m : ModuleMap) : Option (List Char) :=
  saveModuleMapJson (moduleMapToJson m)

/-- Own-property read on a parsed object: last occurrence wins, matching
the JS object `JSON.parse` would have built from a document with
repeated keys.  Only *own* data properties live here; the prototype
chain a real JS property read walks next is the business of
`jsonGetProp`. -/
def objGet (fields : List (String × Json)) (k : String) : Option Json :=
  fields.foldl (fun acc p => if p.1 = k then some p.2 else acc) none

/-- The property names every plain JS object inherits from
`Object.prototype`.  Reading any of them on a `JSON.parse`-produced
object that lacks the name as an own key yields the inherited value - a
built-in function, or `Object.prototype` itself for the `__proto__`
accessor - in every case a truthy object. -/
def objectPrototypeProps : List String :=
  ["constructor", "hasOwnProperty", "isPrototypeOf", "propertyIsEnumerable",
   "toLocaleString", "toString", "valueOf", "__proto__", "__defineGetter__",
   "__defineSetter__", "__lookupGetter__", "__lookupSetter__"]

/-- The outcome of the JS property read `value[k]`: the value of an own
data property, a member inherited from `Object.prototype` (not a JSON
value - a built-in function or the prototype object, always truthy), or
`undefined`. -/
inductive PropRead where
  | own (j : Json) : PropRead
  | inherited : PropRead
  | undefined : PropRead

/-- The JS property read `value[k]` on a parsed value: an own key of an
object wins (shadowing the prototype, as an own `__proto__` data
property created by `JSON.parse` does); failing that, the
`Object.prototype` names read as inherited truthy members.  On the
non-object documents a hand-edited file can produce, the primitive and
array prototypes (`String.prototype`, string `length` and indices,
`Array.prototype`) are not modelled - no theorem below touches such a
document. -/
def jsonGetProp (j : Json) (k : String) : PropRead :=
  match j with
  | .obj fields =>
    match objGet fields k with
    | some v => .own v
    | none => if k ∈ objectPrototypeProps then .inherited else .undefined
  | _ => .undefined

/-- Whether the lexeme of a JSON number denotes zero: no nonzero digit
in its significand. -/
def numLexemeIsZero (lex : String) : Bool :=
  (lex.data.takeWhile (fun c => ¬ (c = 'e' ∨ c = 'E'))).all
    (fun c => ¬ (isDigitChar c ∧ c ≠ '0'))

/-- JS truthiness of a JSON value: `null`, `false`, `0` and `""` are
falsy. -/
def jsTruthy : Json → Bool
  | .null => false
  | .bool b => b
  | .num lex => ¬ numLexemeIsZero lex
  | .str s => s ≠ ""
  | .arr _ => true
  | .obj _ => true

/-- JS truthiness of a property read: `undefined` is falsy; a member
inherited from `Object.prototype` is truthy. -/
def propReadTruthy : PropRead → Bool
  | .own v => jsTruthy v
  | .inherited => true
  | .undefined => false

/-- `delete map[k]` on a parsed object: `delete` removes own properties
only, so for a name found nowhere - or only on the prototype chain - it
leaves the object unchanged, which the own-key filter models. -/
def objDelete (fields : List (String × Json)) (k : String) : List (String × Json) :=
  fields.filter (fun p => ¬ p.1 = k)

/-- `delete value[k]` on a parsed value; a no-op on non-objects. -/
def jsonDeleteProp (j : Json) (k : String) : Json :=
  match j with
  | .obj fields => .obj (objDelete fields k)
  | other => other

/-- `map[k] = v` on a parsed object: an existing key keeps its position
and takes the new value (repeated occurrences collapse, as the JS object
already would have); a new key is appended. -/
def objSet : List (String × Json) → String → Json → List (String × Json)
  | [], k, v => [(k, v)]
  | f :: rest, k, v =>
    if f.1 = k then (k, v) :: objDelete rest k
    else f :: objSet rest k v

/-- `value[k] = v` on a parsed value.  On the non-object values
`loadModuleMap` can produce from a hand-edited file this is modelled as
a no-op (for an array, `JSON.stringify` drops a string-keyed property;
no theorem below reaches this branch). -/
def jsonSetProp (j : Json) (k : String) (v : Json) : Json :=
  match j with
  | .obj fields => .obj (objSet fields k v)
  | other => other

/-- `addModuleToMap` (src/module_map.ts lines 82-92), the persistent-add
operation: load the current map, warn (console only) when the name is
already mapped, resolve the specifier - a resolution failure is thrown
before anything is written - then store the entry and save.  The result
pairs the outcome with the file state after the call.  (For the one
degenerate document `loadModuleMap` can return on which a JS property
read itself throws - a file holding `null` - the source rejects at the
warn check instead, also before any write; the model does not carry that
distinct error value.) -/
def addModuleToMap (file : Option (List Char)) (name specifier : String)
    (activeImportMap : Option DenoImportMap) :
    Except String Unit × Option (List Char) :=
  let currentMap := loadModuleMap file
  match prepareSpecifierForImport specifier activeImportMap with
  | .error e => (.error e, file)
  | .ok resolvedSpecifier =>
    let newMap := jsonSetProp currentMap name (entryToJson ⟨name, resolvedSpecifier⟩)
    (.ok (), saveModuleMapJson newMap)

/-- `removeModuleFromMap` (src/module_map.ts lines 100-108): load the
current map; when the property read `currentMap[moduleName]` is truthy,
delete the entry, save, and return `true`; otherwise return `false`
with no save.  The guard is a full JS property read, so a name it finds
only on `Object.prototype` (say `constructor`) still counts as truthy:
the `delete` then removes nothing, yet the map is re-serialized to the
file and the call returns `true`.  The result pairs the return value
with the file state after the call. -/
def removeModuleFromMap (file : Option (List Char)) (moduleName : String) :
    Bool × Option (List Char) :=
  let currentMap := loadModuleMap file
  if propReadTruthy (jsonGetProp currentMap moduleName) then
    (true, saveModuleMapJson (jsonDeleteProp currentMap moduleName))
  else
    (false, file)

/-! ## Round-trip lemmas: strings

`JSON.parse` recovers every string `JSON.stringify` escapes. -/

/-- A character's scalar value is never a surrogate code unit. -/
theorem char_toNat_not_surrogate (c : Char) :
    isHighSurrogate c.toNat = false ∧ isLowSurrogate c.toNat = false := by
  have h := c.valid
  simp only [isHighSurrogate, isLowSurrogate, Char.toNat]
  constructor
  · rcases h with h | h <;> simp <;> omega
  · rcases h with h | h <;> simp <;> omega

/-- Decoding the code unit of a character gives the character back. -/
theorem unitChar_toNat (c : Char) : unitChar c.toNat = c := by
  have h := char_toNat_not_surrogate c
  simp [unitChar, h.1, h.2, Char.ofNat_toNat]

/-- Surrogate-free code-unit sequences decode elementwise. -/
theorem unitsToCharsFuel_map_toNat :
    ∀ (cs : List Char) (fuel : Nat), cs.length ≤ fuel →
      unitsToCharsFuel fuel (cs.map Char.toNat) = cs := by
  intro cs
  induction cs with
  | nil => intro fuel _; cases fuel <;> simp [unitsToCharsFuel]
  | cons c cs ih =>
    intro fuel hf
    match fuel, hf with
    | fuel + 1, hf =>
      have h := char_toNat_not_surrogate c
      simp [unitsToCharsFuel, h.1, unitChar_toNat]
      exact ih fuel (by simpa using hf)

/-- `unitsToChars` inverts `List.map Char.toNat`. -/
theorem unitsToChars_map_toNat (cs : List Char) :
    unitsToChars (cs.map Char.toNat) = cs := by
  simpa [unitsToChars] using unitsToCharsFuel_map_toNat cs cs.length le_rfl

/-- `hexVal` reads back the lowercase hex digit of every value below 16. -/
theorem hexVal_hexDigitChar (d : Nat) (h : d < 16) :
    hexVal (hexDigitChar d) = some d := by
  interval_cases d <;> decide

/-- Step lemma: the closing quote ends the string body. -/
theorem parseStringUnits_quote (acc : List Nat) (rest : List Char) :
    parseStringUnits acc ('"' :: rest) = some (acc, rest) := by
  rw [parseStringUnits.eq_def]; simp

/-- Step lemma: an ordinary character contributes its scalar value. -/
theorem parseStringUnits_plain (acc : List Nat) (rest : List Char) (c : Char)
    (h1 : ¬ c = '"') (h2 : ¬ c = '\\') (h8 : ¬ c.toNat < 0x20) :
    parseStringUnits acc (c :: rest) = parseStringUnits (acc ++ [c.toNat]) rest := by
  rw [parseStringUnits.eq_def]; simp [h1, h2, h8]

/-- Step lemma: a single-character escape contributes its character. -/
theorem parseStringUnits_simple (acc : List Nat) (rest : List Char) (e d : Char)
    (he : ¬ e = 'u') (hd : simpleUnescape e = some d) :
    parseStringUnits acc ('\\' :: e :: rest) = parseStringUnits (acc ++ [d.toNat]) rest := by
  rw [parseStringUnits.eq_def]; simp [he, hd]

/-- Step lemma: a `\u` escape contributes its code unit. -/
theorem parseStringUnits_hex (acc : List Nat) (rest : List Char) (h1 h2 h3 h4 : Char)
    (n : Nat) (hn : hex4 h1 h2 h3 h4 = some n) :
    parseStringUnits acc ('\\' :: 'u' :: h1 :: h2 :: h3 :: h4 :: rest) =
      parseStringUnits (acc ++ [n]) rest := by
  rw [parseStringUnits.eq_def]; simp [hn]

/-- The escape of one character, re-read: each escaped character hands
the decoder exactly its scalar value. -/
theorem parseStringUnits_escapeList :
    ∀ (cs : List Char) (acc : List Nat) (rest : List Char),
      parseStringUnits acc (escapeList cs ++ '"' :: rest) =
        some (acc ++ cs.map Char.toNat, rest) := by
  intro cs
  induction cs with
  | nil => intro acc rest; simp [escapeList, parseStringUnits_quote]
  | cons c cs ih =>
    intro acc rest
    by_cases h1 : c = '"'
    · subst h1
      simp [escapeList, escapeChar, List.append_assoc,
        parseStringUnits_simple _ _ '"' '"' (by decide) (by decide), ih]
    · by_cases h2 : c = '\\'
      · subst h2
        simp [escapeList, escapeChar, List.append_assoc,
          parseStringUnits_simple _ _ '\\' '\\' (by decide) (by decide), ih]
      · by_cases h3 : c = '\x08'
        · subst h3
          simp [escapeList, escapeChar, List.append_assoc,
            parseStringUnits_simple _ _ 'b' '\x08' (by decide) (by decide), ih]
        · by_cases h4 : c = '\t'
          · subst h4
            simp [escapeList, escapeChar, List.append_assoc,
              parseStringUnits_simple _ _ 't' '\t' (by decide) (by decide), ih]
          · by_cases h5 : c = '\n'
            · subst h5
              simp [escapeList, escapeChar, List.append_assoc,
                parseStringUnits_simple _ _ 'n' '\n' (by decide) (by decide), ih]
            · by_cases h6 : c = '\x0c'
              · subst h6
                simp [escapeList, escapeChar, List.append_assoc,
                  parseStringUnits_simple _ _ 'f' '\x0c' (by decide) (by decide), ih]
              · by_cases h7 : c = '\r'
                · subst h7
                  simp [escapeList, escapeChar, List.append_assoc,
                    parseStringUnits_simple _ _ 'r' '\r' (by decide) (by decide), ih]
                · by_cases h8 : c.toNat < 0x20
                  · have hdiv : c.toNat / 16 < 16 := by omega
                    have hmod : c.toNat % 16 < 16 := by omega
                    have hx : hex4 '0' '0' (hexDigitChar (c.toNat / 16))
                        (hexDigitChar (c.toNat % 16)) = some c.toNat := by
                      simp [hex4, hexVal_hexDigitChar _ hdiv, hexVal_hexDigitChar _ hmod,
                        show hexVal '0' = some 0 from by decide]
                      omega
                    simp [escapeList, escapeChar, h1, h2, h3, h4, h5, h6, h7, h8,
                      List.append_assoc, parseStringUnits_hex _ _ _ _ _ _ _ hx, ih]
                  · simp [escapeList, escapeChar, h1, h2, h3, h4, h5, h6, h7, h8,
                      List.append_assoc, parseStringUnits_plain _ _ c h1 h2 h8, ih]

/-- **String round trip**: the body `JSON.stringify` writes for `s`,
followed by the closing quote, reads back as exactly `s`. -/
theorem parseStringBody_escape (s : String) (rest : List Char) :
    parseStringBody (escapeList s.data ++ '"' :: rest) = some (s, rest) := by
  simp [parseStringBody, parseStringUnits_escapeList s.data [] rest,
    unitsToChars_map_toNat]

/-! ## Round-trip lemmas: whitespace and parser steps -/

/-- `skipWs` drops a whitespace head. -/
theorem skipWs_cons_ws (c : Char) (X : List Char) (h : isJsonWs c = true) :
    skipWs (c :: X) = skipWs X := by simp [skipWs, h]

/-- `skipWs` stops at a non-whitespace head. -/
theorem skipWs_cons_nws (c : Char) (X : List Char) (h : isJsonWs c = false) :
    skipWs (c :: X) = c :: X := by simp [skipWs, h]

/-- `skipWs` crosses an indentation run. -/
theorem skipWs_replicate_space (n : Nat) (X : List Char) :
    skipWs (List.replicate n ' ' ++ X) = skipWs X := by
  induction n with
  | zero => simp
  | succ n ih => simp [List.replicate_succ, skipWs, isJsonWs, ih]

/-- `parseValue` only looks at its input through `skipWs`. -/
theorem parseValue_congr (f : Nat) (X Y : List Char) (h : skipWs X = skipWs Y) :
    parseValue (f + 1) X = parseValue (f + 1) Y := by
  rw [parseValue, parseValue, h]

/-- `parseMembers` only looks at its input through `skipWs`. -/
theorem parseMembers_congr (f : Nat) (X Y : List Char) (h : skipWs X = skipWs Y) :
    parseMembers (f + 1) X = parseMembers (f + 1) Y := by
  rw [parseMembers, parseMembers, h]

/-- A string token parses to its string. -/
theorem parseValue_str (f : Nat) (X : List Char) (s : String) (tail : List Char)
    (h : skipWs X = '"' :: (escapeList s.data ++ '"' :: tail)) :
    parseValue (f + 1) X = some (.str s, tail) := by
  rw [parseValue, h]; simp [parseStringBody_escape]

/-- An empty object token parses to the empty object. -/
theorem parseValue_objEmpty (f : Nat) (X Y r : List Char)
    (h : skipWs X = '{' :: Y) (h2 : skipWs Y = '}' :: r) :
    parseValue (f + 1) X = some (.obj [], r) := by
  rw [parseValue, h]; simp [h2]

/-- A nonempty object delegates to `parseMembers`. -/
theorem parseValue_objStep (f : Nat) (X Y r2 r : List Char) (c2 : Char)
    (ms : List (String × Json))
    (h : skipWs X = '{' :: Y) (h2 : skipWs Y = c2 :: r2) (hc : ¬ c2 = '}')
    (hm : parseMembers f (c2 :: r2) = some (ms, r)) :
    parseValue (f + 1) X = some (.obj ms, r) := by
  rw [parseValue, h]; simp [h2, hc, hm]

/-- The last member of an object: key, colon, value, closing brace. -/
theorem parseMembers_last (f : Nat) (X afterKey afterColon afterVal r : List Char)
    (k : String) (v : Json)
    (h1 : skipWs X = '"' :: (escapeList k.data ++ '"' :: afterKey))
    (h2 : skipWs afterKey = ':' :: afterColon)
    (h3 : parseValue f afterColon = some (v, afterVal))
    (h4 : skipWs afterVal = '}' :: r) :
    parseMembers (f + 1) X = some ([(k, v)], r) := by
  rw [parseMembers, h1]; simp [parseStringBody_escape, h2, h3, h4]

/-- A non-last member of an object: key, colon, value, comma, rest. -/
theorem parseMembers_cons (f : Nat) (X afterKey afterColon afterVal afterComma r : List Char)
    (k : String) (v : Json) (ms : List (String × Json))
    (h1 : skipWs X = '"' :: (escapeList k.data ++ '"' :: afterKey))
    (h2 : skipWs afterKey = ':' :: afterColon)
    (h3 : parseValue f afterColon = some (v, afterVal))
    (h4 : skipWs afterVal = ',' :: afterComma)
    (h5 : parseMembers f afterComma = some (ms, r)) :
    parseMembers (f + 1) X = some ((k, v) :: ms, r) := by
  rw [parseMembers, h1]; simp [parseStringBody_escape, h2, h3, h4, h5]

theorem parseValue_entry (f : Nat) (e : ModuleMapEntry) (rest : List Char) :
    parseValue (f + 4) (renderJson 2 (entryToJson e) ++ rest) = some (entryToJson e, rest) := by
  have hv2 : parseValue (f + 1) (' ' :: '"' :: (escapeList e.url.data ++ '"' :: '\n' :: ' ' :: ' ' :: '}' :: rest)) = some (.str e.url, '\n' :: ' ' :: ' ' :: '}' :: rest) :=
    parseValue_str f _ e.url _ (by simp [skipWs, isJsonWs])
  have hm2 : parseMembers (f + 2) ('\n' :: ' ' :: ' ' :: ' ' :: ' ' :: '"' :: (escapeList "url".data ++ '"' :: ':' :: ' ' :: '"' :: (escapeList e.url.data ++ '"' :: '\n' :: ' ' :: ' ' :: '}' :: rest))) = some ([("url", Json.str e.url)], rest) :=
    parseMembers_last (f + 1) _ (':' :: ' ' :: '"' :: (escapeList e.url.data ++ '"' :: '\n' :: ' ' :: ' ' :: '}' :: rest)) (' ' :: '"' :: (escapeList e.url.data ++ '"' :: '\n' :: ' ' :: ' ' :: '}' :: rest)) ('\n' :: ' ' :: ' ' :: '}' :: rest) rest "url" (Json.str e.url)
      (by simp [skipWs, isJsonWs]) (by simp [skipWs, isJsonWs]) hv2 (by simp [skipWs, isJsonWs])
  have hv1 : parseValue (f + 2) (' ' :: '"' :: (escapeList e.name.data ++ '"' :: ',' :: '\n' :: ' ' :: ' ' :: ' ' :: ' ' :: '"' :: (escapeList "url".data ++ '"' :: ':' :: ' ' :: '"' :: (escapeList e.url.data ++ '"' :: '\n' :: ' ' :: ' ' :: '}' :: rest)))) = some (.str e.name, ',' :: '\n' :: ' ' :: ' ' :: ' ' :: ' ' :: '"' :: (escapeList "url".data ++ '"' :: ':' :: ' ' :: '"' :: (escapeList e.url.data ++ '"' :: '\n' :: ' ' :: ' ' :: '}' :: rest))) :=
    parseValue_str (f + 1) _ e.name _ (by simp [skipWs, isJsonWs])
  have hm1 : parseMembers (f + 3) ('\n' :: ' ' :: ' ' :: ' ' :: ' ' :: '"' :: (escapeList "name".data ++ '"' :: ':' :: ' ' :: '"' :: (escapeList e.name.data ++ '"' :: ',' :: '\n' :: ' ' :: ' ' :: ' ' :: ' ' :: '"' :: (escapeList "url".data ++ '"' :: ':' :: ' ' :: '"' :: (escapeList e.url.data ++ '"' :: '\n' :: ' ' :: ' ' :: '}' :: rest))))) =
      some ([("name", Json.str e.name), ("url", Json.str e.url)], rest) :=
    parseMembers_cons (f + 2) _ (':' :: ' ' :: '"' :: (escapeList e.name.data ++ '"' :: ',' :: '\n' :: ' ' :: ' ' :: ' ' :: ' ' :: '"' :: (escapeList "url".data ++ '"' :: ':' :: ' ' :: '"' :: (escapeList e.url.data ++ '"' :: '\n' :: ' ' :: ' ' :: '}' :: rest)))) (' ' :: '"' :: (escapeList e.name.data ++ '"' :: ',' :: '\n' :: ' ' :: ' ' :: ' ' :: ' ' :: '"' :: (escapeList "url".data ++ '"' :: ':' :: ' ' :: '"' :: (escapeList e.url.data ++ '"' :: '\n' :: ' ' :: ' ' :: '}' :: rest)))) (',' :: '\n' :: ' ' :: ' ' :: ' ' :: ' ' :: '"' :: (escapeList "url".data ++ '"' :: ':' :: ' ' :: '"' :: (escapeList e.url.data ++ '"' :: '\n' :: ' ' :: ' ' :: '}' :: rest))) ('\n' :: ' ' :: ' ' :: ' ' :: ' ' :: '"' :: (escapeList "url".data ++ '"' :: ':' :: ' ' :: '"' :: (escapeList e.url.data ++ '"' :: '\n' :: ' ' :: ' ' :: '}' :: rest))) rest
      "name" (Json.str e.name) [("url", Json.str e.url)]
      (by simp [skipWs, isJsonWs]) (by simp [skipWs, isJsonWs]) hv1
      (by simp [skipWs, isJsonWs]) hm2
  have hA : renderJson 2 (entryToJson e) ++ rest = '\x7b' :: ('\n' :: ' ' :: ' ' :: ' ' :: ' ' :: '"' :: (escapeList "name".data ++ '"' :: ':' :: ' ' :: '"' :: (escapeList e.name.data ++ '"' :: ',' :: '\n' :: ' ' :: ' ' :: ' ' :: ' ' :: '"' :: (escapeList "url".data ++ '"' :: ':' :: ' ' :: '"' :: (escapeList e.url.data ++ '"' :: '\n' :: ' ' :: ' ' :: '}' :: rest))))) := by
    simp [renderJson, renderFields, renderString, entryToJson, List.replicate]
  have hm1' : parseMembers (f + 3) ('"' :: (escapeList "name".data ++ '"' :: ':' :: ' ' :: '"' :: (escapeList e.name.data ++ '"' :: ',' :: '\n' :: ' ' :: ' ' :: ' ' :: ' ' :: '"' :: (escapeList "url".data ++ '"' :: ':' :: ' ' :: '"' :: (escapeList e.url.data ++ '"' :: '\n' :: ' ' :: ' ' :: '}' :: rest))))) =
      some ([("name", Json.str e.name), ("url", Json.str e.url)], rest) := by
    rw [parseMembers_congr (f + 2) _ ('\n' :: ' ' :: ' ' :: ' ' :: ' ' :: '"' :: (escapeList "name".data ++ '"' :: ':' :: ' ' :: '"' :: (escapeList e.name.data ++ '"' :: ',' :: '\n' :: ' ' :: ' ' :: ' ' :: ' ' :: '"' :: (escapeList "url".data ++ '"' :: ':' :: ' ' :: '"' :: (escapeList e.url.data ++ '"' :: '\n' :: ' ' :: ' ' :: '}' :: rest))))) (by simp [skipWs, isJsonWs])]
    exact hm1
  have := parseValue_objStep (f + 3) (renderJson 2 (entryToJson e) ++ rest) ('\n' :: ' ' :: ' ' :: ' ' :: ' ' :: '"' :: (escapeList "name".data ++ '"' :: ':' :: ' ' :: '"' :: (escapeList e.name.data ++ '"' :: ',' :: '\n' :: ' ' :: ' ' :: ' ' :: ' ' :: '"' :: (escapeList "url".data ++ '"' :: ':' :: ' ' :: '"' :: (escapeList e.url.data ++ '"' :: '\n' :: ' ' :: ' ' :: '}' :: rest)))))
      (escapeList "name".data ++ '"' :: ':' :: ' ' :: '"' :: (escapeList e.name.data ++ '"' :: ',' :: '\n' :: ' ' :: ' ' :: ' ' :: ' ' :: '"' :: (escapeList "url".data ++ '"' :: ':' :: ' ' :: '"' :: (escapeList e.url.data ++ '"' :: '\n' :: ' ' :: ' ' :: '}' :: rest)))) rest '"' [("name", Json.str e.name), ("url", Json.str e.url)]
      (by rw [hA]; simp [skipWs, isJsonWs]) (by simp [skipWs, isJsonWs]) (by decide) hm1'
  simpa [entryToJson] using this

/-- **Member-list round trip** for the top-level document: the printed
members of a nonempty module map, followed by the closing line, read
back as exactly those members. -/
theorem parseMembers_moduleMap :
    ∀ (ps : ModuleMap) (p : String × ModuleMapEntry) (f : Nat) (rest : List Char),
      5 * ps.length + 5 ≤ f →
      parseMembers f
          (renderFields 2 (fieldToJson p) (ps.map fieldToJson) ++ '\n' :: '}' :: rest) =
        some ((p :: ps).map fieldToJson, rest) := by
  intro ps
  induction ps with
  | nil =>
    intro p f rest hf
    obtain ⟨f1, rfl⟩ : ∃ f1, f = f1 + 5 := ⟨f - 5, by omega⟩
    have h3 : parseValue (f1 + 4)
        (' ' :: (renderJson 2 (entryToJson p.2) ++ '\n' :: '}' :: rest)) =
        some (entryToJson p.2, '\n' :: '}' :: rest) := by
      rw [parseValue_congr (f1 + 3) _
        (renderJson 2 (entryToJson p.2) ++ '\n' :: '}' :: rest) (by simp [skipWs, isJsonWs])]
      exact parseValue_entry f1 p.2 _
    have := parseMembers_last (f1 + 4)
      (renderFields 2 (fieldToJson p) (List.map fieldToJson []) ++ '\n' :: '}' :: rest)
      (':' :: ' ' :: (renderJson 2 (entryToJson p.2) ++ '\n' :: '}' :: rest))
      (' ' :: (renderJson 2 (entryToJson p.2) ++ '\n' :: '}' :: rest))
      ('\n' :: '}' :: rest) rest p.1 (entryToJson p.2)
      (by simp [fieldToJson, renderFields, renderString, List.replicate, skipWs, isJsonWs])
      (by simp [skipWs, isJsonWs]) h3 (by simp [skipWs, isJsonWs])
    simpa [fieldToJson] using this
  | cons q ps ih =>
    intro p f rest hf
    obtain ⟨f2, rfl⟩ : ∃ f2, f = f2 + 5 := ⟨f - 5, by omega⟩
    have h3 : parseValue (f2 + 4)
        (' ' :: (renderJson 2 (entryToJson p.2) ++ ',' :: '\n' ::
          (renderFields 2 (fieldToJson q) (ps.map fieldToJson) ++ '\n' :: '}' :: rest))) =
        some (entryToJson p.2, ',' :: '\n' ::
          (renderFields 2 (fieldToJson q) (ps.map fieldToJson) ++ '\n' :: '}' :: rest)) := by
      rw [parseValue_congr (f2 + 3) _
        (renderJson 2 (entryToJson p.2) ++ ',' :: '\n' ::
          (renderFields 2 (fieldToJson q) (ps.map fieldToJson) ++ '\n' :: '}' :: rest))
        (by simp [skipWs, isJsonWs])]
      exact parseValue_entry f2 p.2 _
    have h5 : parseMembers (f2 + 4)
        ('\n' :: (renderFields 2 (fieldToJson q) (ps.map fieldToJson) ++ '\n' :: '}' :: rest)) =
        some ((q :: ps).map fieldToJson, rest) := by
      rw [parseMembers_congr (f2 + 3) _
        (renderFields 2 (fieldToJson q) (ps.map fieldToJson) ++ '\n' :: '}' :: rest)
        (by simp [skipWs, isJsonWs])]
      exact ih q (f2 + 4) rest (by simp at hf ⊢; omega)
    have := parseMembers_cons (f2 + 4)
      (renderFields 2 (fieldToJson p) (List.map fieldToJson (q :: ps)) ++ '\n' :: '}' :: rest)
      (':' :: ' ' :: (renderJson 2 (entryToJson p.2) ++ ',' :: '\n' ::
        (renderFields 2 (fieldToJson q) (ps.map fieldToJson) ++ '\n' :: '}' :: rest)))
      (' ' :: (renderJson 2 (entryToJson p.2) ++ ',' :: '\n' ::
        (renderFields 2 (fieldToJson q) (ps.map fieldToJson) ++ '\n' :: '}' :: rest)))
      (',' :: '\n' ::
        (renderFields 2 (fieldToJson q) (ps.map fieldToJson) ++ '\n' :: '}' :: rest))
      ('\n' :: (renderFields 2 (fieldToJson q) (ps.map fieldToJson) ++ '\n' :: '}' :: rest))
      rest p.1 (entryToJson p.2) ((q :: ps).map fieldToJson)
      (by simp [fieldToJson, renderFields, renderString, List.replicate, skipWs, isJsonWs])
      (by simp [skipWs, isJsonWs]) h3 (by simp [skipWs, isJsonWs]) h5
    simpa [fieldToJson] using this

/-- Every printed member line is at least five characters, so the
document length dominates the fuel the member loop needs. -/
theorem renderFields_length_lower :
    ∀ (fs : List (String × Json)) (p : String × Json) (ind : Nat),
      5 * fs.length + 1 ≤ (renderFields ind p fs).length := by
  intro fs
  induction fs with
  | nil =>
    intro p ind
    obtain ⟨k, v⟩ := p
    simp [renderFields, renderString]
    omega
  | cons q fs ih =>
    intro p ind
    obtain ⟨k, v⟩ := p
    have h := ih q ind
    simp [renderFields, renderString]
    omega

/-- A rendered member list starts, after its indentation, with the
opening quote of its first key. -/
theorem renderFields_shape (ind : Nat) (p : String × Json) (fs : List (String × Json)) :
    ∃ T, renderFields ind p fs = List.replicate ind ' ' ++ '"' :: T := by
  obtain ⟨k, v⟩ := p
  cases fs with
  | nil =>
    exact ⟨escapeList k.data ++ '"' :: ':' :: ' ' :: renderJson ind v,
      by simp [renderFields, renderString]⟩
  | cons q fs =>
    exact ⟨escapeList k.data ++ '"' :: ':' :: ' ' :: (renderJson ind v ++
        ',' :: '\n' :: renderFields ind q fs),
      by simp [renderFields, renderString]⟩

/-- **Document round trip**: `JSON.parse` recovers every module map from
the text `JSON.stringify(map, null, 2)` writes for it. -/
theorem parseJsonText_renderModuleMap (m : ModuleMap) :
    parseJsonText (renderJson 0 (moduleMapToJson m)) = some (moduleMapToJson m) := by
  cases m with
  | nil =>
    have h : renderJson 0 (moduleMapToJson []) = ['{', '}'] := by
      simp [moduleMapToJson, renderJson]
    rw [h]
    rfl
  | cons p ps =>
    have hB : renderJson 0 (moduleMapToJson (p :: ps)) =
        '{' :: '\n' :: (renderFields 2 (fieldToJson p) (ps.map fieldToJson) ++ ['\n', '}']) := by
      simp [moduleMapToJson, renderJson, fieldToJson]
    obtain ⟨T, hT⟩ := renderFields_shape 2 (fieldToJson p) (ps.map fieldToJson)
    have hlen := renderFields_length_lower (ps.map fieldToJson) (fieldToJson p) 2
    set RF := renderFields 2 (fieldToJson p) (ps.map fieldToJson) with hRF
    have hm : parseMembers (RF.length + 4) ('"' :: (T ++ ['\n', '}'])) =
        some ((p :: ps).map fieldToJson, []) := by
      rw [parseMembers_congr (RF.length + 3) _ (RF ++ '\n' :: '}' :: ([] : List Char))
        (by rw [hT]; simp [skipWs_replicate_space, skipWs, isJsonWs])]
      exact parseMembers_moduleMap ps p (RF.length + 4) [] (by simp at hlen ⊢; omega)
    have hv : parseValue (RF.length + 4 + 1)
        ('{' :: '\n' :: (RF ++ ['\n', '}'])) =
        some (.obj ((p :: ps).map fieldToJson), []) := by
      refine parseValue_objStep (RF.length + 4) _
        ('\n' :: (RF ++ ['\n', '}'])) (T ++ ['\n', '}']) [] '"'
        ((p :: ps).map fieldToJson)
        (by simp [skipWs, isJsonWs]) ?_ (by decide) hm
      rw [skipWs_cons_ws '\n' _ (by decide), hT]
      simp [skipWs_replicate_space, skipWs, isJsonWs]
    rw [hB]
    have hlenEq : ('{' :: '\n' :: (RF ++ ['\n', '}'])).length + 1 = RF.length + 4 + 1 := by
      simp
    unfold parseJsonText
    rw [hlenEq, hv]
    simp [moduleMapToJson, fieldToJson, skipWs]

/-! ## Auxiliary facts for the claim theorems -/

/-- A saved module-map document is never whitespace-only. -/
theorem renderModuleMap_not_blank (m : ModuleMap) :
    (renderJson 0 (moduleMapToJson m)).all Char.isWhitespace = false := by
  cases m with
  | nil =>
    have h : renderJson 0 (moduleMapToJson []) = ['{', '}'] := by
      simp [moduleMapToJson, renderJson]
    rw [h]; decide
  | cons p ps =>
    have h : renderJson 0 (moduleMapToJson (p :: ps)) =
        '{' :: '\n' :: (renderFields 2 (fieldToJson p) (ps.map fieldToJson) ++ ['\n', '}']) := by
      simp [moduleMapToJson, renderJson]
    rw [h]
    simp

/-! ## The claims -/

/-- **C1, counterexample.**  The claim says a mapped value that is
neither an absolute URL nor `jsr:`/`npm:`-tagged always fails to
resolve; but a mapped value starting with the `@std/` shorthand is
rewritten and resolves. -/
theorem resolve_mapped_shorthand_counterexample :
    parsesAsUrl "@std/fs" = false ∧
    strStartsWith "@std/fs" "jsr:" = false ∧
    strStartsWith "@std/fs" "npm:" = false ∧
    prepareSpecifierForImport "fs" (some ⟨[("fs", "@std/fs")]⟩) = .ok "jsr:@std/fs" :=
  ⟨rfl, rfl, rfl, rfl⟩

/-- **C1, amended.**  If an import map sends `s` to a non-empty `t` that
is not an absolute URL, does not start with the `@std/` shorthand, and
does not start with `jsr:` or `npm:`, then resolution fails with the
unresolvable-specifier error naming the original `s`. -/
theorem resolve_mapped_nonresolvable_fails (s t : String) (im : DenoImportMap)
    (hlook : im.imports.lookup s = some t) (hne : ¬ t = "")
    (hurl : parsesAsUrl t = false)
    (hstd : strStartsWith t "@std/" = false)
    (hjsr : strStartsWith t "jsr:" = false)
    (hnpm : strStartsWith t "npm:" = false) :
    prepareSpecifierForImport s (some im) = .error (unresolvableMessage s) := by
  simp [prepareSpecifierForImport, importMapHit, importMapTruthyLookup,
    hlook, hne, hurl, hstd, hjsr, hnpm]

/-- **C1, witness.** -/
theorem resolve_mapped_nonresolvable_fails_witness :
    (([("leftpad", "lodash")] : List (String × String)).lookup "leftpad" = some "lodash") ∧
    prepareSpecifierForImport "leftpad" (some ⟨[("leftpad", "lodash")]⟩) =
      .error (unresolvableMessage "leftpad") :=
  ⟨rfl, resolve_mapped_nonresolvable_fails "leftpad" "lodash" ⟨[("leftpad", "lodash")]⟩
    rfl (by decide) rfl rfl rfl rfl⟩

/-- **C2, counterexample.**  The claim says an absolute-URL specifier is
returned unchanged regardless of the import map; but the map lookup runs
first, so a mapped absolute-URL key resolves to its mapped value. -/
theorem resolve_url_mapped_counterexample :
    parsesAsUrl "https://example.com/mod.ts" = true ∧
    prepareSpecifierForImport "https://example.com/mod.ts"
      (some ⟨[("https://example.com/mod.ts", "npm:zod")]⟩) = .ok "npm:zod" ∧
    prepareSpecifierForImport "https://example.com/mod.ts"
      (some ⟨[("https://example.com/mod.ts", "npm:zod")]⟩) ≠
        .ok "https://example.com/mod.ts" := by
  refine ⟨rfl, rfl, ?_⟩
  intro h
  rw [show prepareSpecifierForImport "https://example.com/mod.ts"
      (some ⟨[("https://example.com/mod.ts", "npm:zod")]⟩) = .ok "npm:zod" from rfl] at h
  injection h with h2
  exact absurd h2 (by decide)

/-- **C2, amended.**  A specifier that parses as an absolute URL is
returned unchanged whenever the import map (if any) has no truthy entry
for it. -/
theorem resolve_url_unmapped_id (s : String) (im : Option DenoImportMap)
    (hurl : parsesAsUrl s = true) (hmiss : importMapHit im s = none) :
    prepareSpecifierForImport s im = .ok s := by
  simp [prepareSpecifierForImport, hmiss, hurl]

/-- **C2, witness.** -/
theorem resolve_url_unmapped_id_witness :
    parsesAsUrl "https://deno.land/std/fs/mod.ts" = true ∧
    importMapHit (some ⟨[("zod", "npm:zod")]⟩) "https://deno.land/std/fs/mod.ts" = none ∧
    prepareSpecifierForImport "https://deno.land/std/fs/mod.ts"
      (some ⟨[("zod", "npm:zod")]⟩) = .ok "https://deno.land/std/fs/mod.ts" :=
  ⟨rfl, rfl, resolve_url_unmapped_id "https://deno.land/std/fs/mod.ts"
    (some ⟨[("zod", "npm:zod")]⟩) rfl rfl⟩

/-- **C3.**  Executing a non-empty live buffer hands the evaluator the
buffer joined with newlines, archives the buffer (evicting the oldest
entry when the history passes its capacity), points the history cursor
at the new last entry, and clears the live buffer. -/
theorem run_nonempty_buffer_spec (st : ReplState) (h : st.codeBuffer ≠ []) :
    (commandRun st).2 = some (String.intercalate "\n" st.codeBuffer) ∧
    (commandRun st).1.codeBuffer = [] ∧
    (commandRun st).1.executedBufferHistory =
      (if st.executedBufferHistory.length + 1 > 100
       then (st.executedBufferHistory ++ [st.codeBuffer]).tail
       else st.executedBufferHistory ++ [st.codeBuffer]) ∧
    (commandRun st).1.bufferHistoryPointer =
      ((commandRun st).1.executedBufferHistory.length : Int) - 1 := by
  have hlen : st.codeBuffer.length > 0 := List.length_pos.mpr h
  by_cases hcap : st.executedBufferHistory.length + 1 > 100 <;>
    simp [commandRun, hlen, hcap]

/-- **C3, witness**: the scenario from a fresh state with buffer
`["a", "b"]`. -/
theorem run_nonempty_buffer_spec_witness :
    (["a", "b"] : List String) ≠ [] ∧
    (commandRun ⟨["a", "b"], [], -1⟩).2 = some "a\nb" ∧
    (commandRun ⟨["a", "b"], [], -1⟩).1.codeBuffer = [] ∧
    (commandRun ⟨["a", "b"], [], -1⟩).1.executedBufferHistory = [["a", "b"]] ∧
    (commandRun ⟨["a", "b"], [], -1⟩).1.bufferHistoryPointer = 0 := by
  obtain ⟨h1, h2, h3, h4⟩ := run_nonempty_buffer_spec ⟨["a", "b"], [], -1⟩ (by decide)
  refine ⟨by decide, ?_, h2, ?_, ?_⟩
  · rw [h1]; decide
  · rw [h3]; decide
  · rw [h4, h3]; decide

/-- **C4.**  The executed-buffer history stays at or below 100 entries
across an execution, and at capacity the eviction is FIFO: the oldest
entry drops, the second-oldest becomes the head, and the executed buffer
is appended as the newest entry. -/
theorem history_capacity_fifo (st : ReplState) :
    (st.executedBufferHistory.length ≤ 100 →
      (commandRun st).1.executedBufferHistory.length ≤ 100) ∧
    (st.executedBufferHistory.length = 100 → st.codeBuffer ≠ [] →
      (commandRun st).1.executedBufferHistory =
        st.executedBufferHistory.tail ++ [st.codeBuffer] ∧
      (commandRun st).1.executedBufferHistory.head? = st.executedBufferHistory[1]? ∧
      (commandRun st).1.executedBufferHistory.getLast? = some st.codeBuffer) := by
  constructor
  · intro hle
    by_cases hb : st.codeBuffer.length > 0
    · by_cases hcap : st.executedBufferHistory.length + 1 > 100 <;>
        simp [commandRun, hb, hcap] <;> omega
    · simp [commandRun, hb]; omega
  · intro hlen hb
    have hb' : st.codeBuffer.length > 0 := List.length_pos.mpr hb
    have hcap : st.executedBufferHistory.length + 1 > 100 := by omega
    obtain ⟨e0, hist, hh⟩ : ∃ e0 hist, st.executedBufferHistory = e0 :: hist := by
      cases hx : st.executedBufferHistory with
      | nil => rw [hx] at hlen; simp at hlen
      | cons a b => exact ⟨a, b, rfl⟩
    obtain ⟨e1, hist1, hh1⟩ : ∃ e1 hist1, hist = e1 :: hist1 := by
      cases hx : hist with
      | nil => rw [hh, hx] at hlen; simp at hlen
      | cons a b => exact ⟨a, b, rfl⟩
    have hl1 : hist.length = 99 := by
      rw [hh] at hlen; simpa using hlen
    have hl2 : hist1.length = 98 := by
      rw [hh1] at hl1; simpa using hl1
    refine ⟨?_, ?_, ?_⟩
    · simp [commandRun, hb', hh, hl1]
    · simp [commandRun, hb', hh, hh1, hl2]
    · simp [commandRun, hb', hh, hl1, List.getLast?_append]

/-- **C4, witness**: a history holding entries numbered 0 through 99;
one more execution drops entry 0, makes entry 1 the oldest, and appends
the new buffer. -/
theorem history_capacity_fifo_witness :
    ((List.range 100).map (fun n => [Nat.repr n])).length = 100 ∧
    (["new"] : List String) ≠ [] ∧
    (commandRun ⟨["new"], (List.range 100).map (fun n => [Nat.repr n]), -1⟩).1.executedBufferHistory =
      ((List.range 100).map (fun n => [Nat.repr n])).tail ++ [["new"]] ∧
    (commandRun ⟨["new"], (List.range 100).map (fun n => [Nat.repr n]), -1⟩).1.executedBufferHistory.head? =
      ((List.range 100).map (fun n => [Nat.repr n]))[1]? ∧
    (commandRun ⟨["new"], (List.range 100).map (fun n => [Nat.repr n]), -1⟩).1.executedBufferHistory.getLast? =
      some ["new"] := by
  obtain ⟨h1, h2, h3⟩ :=
    (history_capacity_fifo ⟨["new"], (List.range 100).map (fun n => [Nat.repr n]), -1⟩).2
      (by decide) (by decide)
  exact ⟨by decide, by decide, h1, h2, h3⟩

/-- **C5.**  From live mode (`pointer = -1`) with a non-empty history,
`.bhprev` lands on the newest history entry - index `length - 1`, not
index 0 - and copies that entry into the live buffer, leaving the stored
history unchanged. -/
theorem bhprev_live_lands_newest (st : ReplState)
    (hh : st.executedBufferHistory ≠ []) (hp : st.bufferHistoryPointer = -1) :
    commandBhprev st = { st with
      bufferHistoryPointer := (st.executedBufferHistory.length : Int) - 1,
      codeBuffer := st.executedBufferHistory.getLast hh } := by
  have hlen : 0 < st.executedBufferHistory.length := List.length_pos.mpr hh
  have htoNat : ((st.executedBufferHistory.length : Int) - 1).toNat =
      st.executedBufferHistory.length - 1 := by omega
  have hget : st.executedBufferHistory.getD (st.executedBufferHistory.length - 1) [] =
      st.executedBufferHistory.getLast hh := by
    rw [List.getLast_eq_getElem, List.getD_eq_getElem?_getD, List.getElem?_eq_getElem (by omega)]
    simp
  simp only [commandBhprev, hp, ite_true]
  rw [if_neg (by omega)]
  rw [if_pos (by constructor <;> omega), htoNat, hget]

/-- **C5, witness.** -/
theorem bhprev_live_lands_newest_witness :
    ([["h1"], ["h2"]] : List (List String)) ≠ [] ∧
    commandBhprev ⟨["x"], [["h1"], ["h2"]], -1⟩ = ⟨["h2"], [["h1"], ["h2"]], 1⟩ := by
  have h := bhprev_live_lands_newest ⟨["x"], [["h1"], ["h2"]], -1⟩ (by decide) rfl
  rw [h]
  exact ⟨by decide, by decide⟩

/-- **C6.**  At the newest history index (history non-empty), `.bhnext`
returns to live mode: the pointer resets to `-1`, the live buffer is
emptied, and the stored history is untouched. -/
theorem bhnext_newest_returns_live (st : ReplState)
    (hh : st.executedBufferHistory ≠ [])
    (hp : st.bufferHistoryPointer = (st.executedBufferHistory.length : Int) - 1) :
    commandBhnext st = { st with codeBuffer := [], bufferHistoryPointer := -1 } := by
  have hlen : 0 < st.executedBufferHistory.length := List.length_pos.mpr hh
  simp only [commandBhnext, hp]
  rw [if_neg (by omega), if_neg (by omega), if_neg (by omega)]

/-- **C6, witness.** -/
theorem bhnext_newest_returns_live_witness :
    ([["h1"], ["h2"]] : List (List String)) ≠ [] ∧
    commandBhnext ⟨["h2"], [["h1"], ["h2"]], 1⟩ = ⟨[], [["h1"], ["h2"]], -1⟩ := by
  have h := bhnext_newest_returns_live ⟨["h2"], [["h1"], ["h2"]], 1⟩ (by decide) (by decide)
  rw [h]
  exact ⟨by decide, by decide⟩

/-- **C7.**  When specifier resolution fails, the persistent-add
operation propagates the failure and performs no write: the module-map
file after the call is exactly the file before it. -/
theorem addModule_resolution_failure_no_write (file : Option (List Char))
    (name specifier : String) (im : Option DenoImportMap) (msg : String)
    (hres : prepareSpecifierForImport specifier im = .error msg) :
    addModuleToMap file name specifier im = (.error msg, file) := by
  simp [addModuleToMap, hres]

/-- **C7, witness.** -/
theorem addModule_resolution_failure_no_write_witness :
    prepareSpecifierForImport "leftpad" none = .error (unresolvableMessage "leftpad") ∧
    addModuleToMap (some ['a']) "m" "leftpad" none =
      (.error (unresolvableMessage "leftpad"), some ['a']) :=
  ⟨rfl, addModule_resolution_failure_no_write (some ['a']) "m" "leftpad" none
    (unresolvableMessage "leftpad") rfl⟩

/-- **C8.**  `loadModuleMap` never throws and yields the empty map on a
missing file, on whitespace-only content, and on content `JSON.parse`
rejects. -/
theorem loadModuleMap_empty_cases (content : List Char) :
    loadModuleMap none = Json.obj [] ∧
    (content.all Char.isWhitespace = true → loadModuleMap (some content) = Json.obj []) ∧
    (parseJsonText content = none → loadModuleMap (some content) = Json.obj []) := by
  refine ⟨rfl, ?_, ?_⟩
  · intro h
    simp [loadModuleMap, h]
  · intro h
    by_cases hb : content.all Char.isWhitespace <;> simp [loadModuleMap, hb, h]

/-- **C8, witness.** -/
theorem loadModuleMap_empty_cases_witness :
    (['\t', ' '].all Char.isWhitespace = true) ∧
    loadModuleMap (some ['\t', ' ']) = Json.obj [] ∧
    parseJsonText ("not json!".data) = none ∧
    loadModuleMap (some ("not json!".data)) = Json.obj [] :=
  ⟨by decide, (loadModuleMap_empty_cases ['\t', ' ']).2.1 (by decide),
    rfl, (loadModuleMap_empty_cases ("not json!".data)).2.2 rfl⟩

/-- **C9.**  Saving a valid module map and loading it back yields
exactly the map's JSON document: the pretty serialization parses to the
value serialized. -/
theorem save_load_roundTrip (m : ModuleMap) (hvalid : (m.map Prod.fst).Nodup) :
    loadModuleMap (saveModuleMap m) = moduleMapToJson m := by
  simp [saveModuleMap, saveModuleMapJson, loadModuleMap,
    renderModuleMap_not_blank m, parseJsonText_renderModuleMap]

/-- **C9, witness.** -/
theorem save_load_roundTrip_witness :
    (([("fs", ⟨"fs", "jsr:@std/fs"⟩), ("z", ⟨"z", "npm:zod"⟩)] : ModuleMap).map Prod.fst).Nodup ∧
    loadModuleMap (saveModuleMap [("fs", ⟨"fs", "jsr:@std/fs"⟩), ("z", ⟨"z", "npm:zod"⟩)]) =
      moduleMapToJson [("fs", ⟨"fs", "jsr:@std/fs"⟩), ("z", ⟨"z", "npm:zod"⟩)] :=
  ⟨by decide, save_load_roundTrip [("fs", ⟨"fs", "jsr:@std/fs"⟩), ("z", ⟨"z", "npm:zod"⟩)]
    (by decide)⟩

/-- **C10, counterexample.**  The guard `currentMap[moduleName]` is a
full JS property read and walks `Object.prototype`: removing
`"constructor"` from the persisted map `\x7b"a":1\x7d`, which has no
such key, finds the inherited constructor function (truthy), deletes
nothing, **rewrites the file** (here even reformatting it), and returns
`true` - where the claim demands `false` and an untouched file. -/
theorem removeModule_inherited_name_counterexample :
    loadModuleMap (some ['{', '"', 'a', '"', ':', '1', '}']) =
      Json.obj [("a", Json.num "1")] ∧
    objGet [("a", Json.num "1")] "constructor" = none ∧
    removeModuleFromMap (some ['{', '"', 'a', '"', ':', '1', '}']) "constructor" =
      (true, some ['{', '\n', ' ', ' ', '"', 'a', '"', ':', ' ', '1', '\n', '}']) ∧
    ((true, some ['{', '\n', ' ', ' ', '"', 'a', '"', ':', ' ', '1', '\n', '}']) :
        Bool × Option (List Char)) ≠
      (false, some ['{', '"', 'a', '"', ':', '1', '}']) := by
  have hr : renderJson 0 (Json.obj [("a", Json.num "1")]) =
      ['{', '\n', ' ', ' ', '"', 'a', '"', ':', ' ', '1', '\n', '}'] := by
    simp [renderJson, renderFields, renderString, escapeList, escapeChar, List.replicate]
  have step : removeModuleFromMap (some ['{', '"', 'a', '"', ':', '1', '}']) "constructor" =
      (true, some (renderJson 0 (Json.obj [("a", Json.num "1")]))) := rfl
  exact ⟨rfl, rfl, by rw [step, hr], by decide⟩

/-- **C10, amended.**  Removing a name that is neither present in the
persisted module map nor one of the property names inherited from
`Object.prototype` returns `false` and writes nothing: the file after
the call is exactly the file before it. -/
theorem removeModule_missing_no_write (file : Option (List Char)) (moduleName : String)
    (fields : List (String × Json))
    (hload : loadModuleMap file = Json.obj fields)
    (hmiss : objGet fields moduleName = none)
    (hproto : moduleName ∉ objectPrototypeProps) :
    removeModuleFromMap file moduleName = (false, file) := by
  simp [removeModuleFromMap, hload, jsonGetProp, hmiss, hproto, propReadTruthy]

/-- **C10, witness.** -/
theorem removeModule_missing_no_write_witness :
    loadModuleMap (some ['{', '}']) = Json.obj [] ∧
    objGet [] "fs" = none ∧
    "fs" ∉ objectPrototypeProps ∧
    removeModuleFromMap (some ['{', '}']) "fs" = (false, some ['{', '}']) :=
  ⟨rfl, rfl, by decide,
    removeModule_missing_no_write (some ['{', '}']) "fs" [] rfl rfl (by decide)⟩
